import Mathlib

/-!
# hostinfo/subscription.go

A shallow embedding of the subscription-manager collector of the `hostinfo`
package, followed by theorems about it.

Go strings are modelled as Lean strings (valid Unicode text).  A Go result
pair `(value, err)` is modelled as a Lean pair whose second component is
`none` for a nil error and `some msg` for an error with message `msg`.
Logging has no effect on any returned value and is left out.
-/

set_option autoImplicit false

namespace hostinfo

/-! ## Go standard library functions used by the source -/

/-- Go `unicode.IsSpace`: the Latin-1 spaces `\t \n \v \f \r`, space, U+0085,
U+00A0, and the other code points with the Unicode White_Space property. -/
def isSpace (c : Char) : Bool :=
  let n := c.toNat
  (0x09 ≤ n && n ≤ 0x0D) || n == 0x20 || n == 0x85 || n == 0xA0 || n == 0x1680 ||
  (0x2000 ≤ n && n ≤ 0x200A) || n == 0x2028 || n == 0x2029 || n == 0x202F ||
  n == 0x205F || n == 0x3000

/-- Go `strings.TrimSpace` on the characters of a string: all leading and all
trailing white space removed. -/
def trimSpaceChars (l : List Char) : List Char :=
  ((l.dropWhile isSpace).reverse.dropWhile isSpace).reverse

/-- Go `strings.TrimSpace`. -/
def TrimSpace (s : String) : String := ⟨trimSpaceChars s.data⟩

/-- Go `strings.HasPrefix`. -/
def HasPrefix (s pre : String) : Bool := pre.data.isPrefixOf s.data

/-- The cut made by `strings.SplitN(s, ":", 2)` when `s` holds a colon: the
text before the first colon and the text after it. -/
def cutColon : List Char → Option (List Char × List Char)
  | [] => none
  | c :: cs =>
    if c = ':' then some ([], cs)
    else match cutColon cs with
      | none => none
      | some (a, b) => some (c :: a, b)

/-- Go `strings.SplitN(s, ":", 2)`: the one-element slice `[s]` when `s` holds
no colon, otherwise the two parts around the first colon. -/
def SplitN2 (s : String) : List String :=
  match cutColon s.data with
  | none => [s]
  | some (a, b) => [⟨a⟩, ⟨b⟩]

/-- Go `bufio.MaxScanTokenSize`, the largest token a `bufio.Scanner` with the
default buffer delivers. -/
def MaxScanTokenSize : Nat := 64 * 1024

/-- Length in bytes of the UTF-8 encoding of a text. -/
def utf8Len (l : List Char) : Nat := (l.map Char.utf8Size).sum

/-- The pieces of a text between its newline characters: a text with `n`
newlines has `n + 1` pieces. -/
def splitNewline : List Char → List (List Char)
  | [] => [[]]
  | c :: cs =>
    if c = '\n' then [] :: splitNewline cs
    else match splitNewline cs with
      | [] => [[c]]
      | l :: ls => (c :: l) :: ls

/-- Go `bufio.dropCR`: one trailing carriage return is removed. -/
def dropCR (l : List Char) : List Char :=
  if l.getLast? = some '\r' then l.dropLast else l

/-- The pieces that `bufio.ScanLines` finds in the input: the text that
follows the last newline is a line only when it is not empty. -/
def rawLines (input : List Char) : List (List Char) :=
  let pieces := splitNewline input
  if pieces.getLast? = some [] then pieces.dropLast else pieces

/-- The successive values of `scanner.Text()` in a `for scanner.Scan()` loop
of a `bufio.NewScanner` over the input, with the default split function
`bufio.ScanLines` and the default buffer: the lines without their end-of-line
marker, up to (and not including) the first line of `MaxScanTokenSize` bytes
or more, where `Scan` stops with `bufio.ErrTooLong` and returns false. -/
def scanLines (input : String) : List String :=
  ((rawLines input.data).takeWhile (fun l => decide (utf8Len l < MaxScanTokenSize))).map
    (fun l => String.mk (dropCR l))

/-! ## Data model -/

/-- Modelled from the spec: the `Billing` part of the `HostInfo` record, whose
declaration is in another file of the package; the fields are the ones the
source assigns, all strings. -/
structure BillingInfo where
  Marketplace : String
  MarketplaceAccount : String
  MarketplaceInstanceId : String
  Model : String
  deriving DecidableEq

/-- Modelled from the spec: the `HostInfo` record, whose declaration is in
another file of the package; the fields are the ones the spec lists and the
source assigns, all strings. -/
structure HostInfo where
  HostId : String
  Usage : String
  Support : String
  Product : String
  SocketCount : String
  Billing : BillingInfo
  deriving DecidableEq

/-- Modelled from the spec: the configuration record `config.Config`, of which
the source reads only the certificate path. -/
structure Config where
  HostCertPath : String
  deriving DecidableEq

/-- A Go `map[string]string`, as an association list with at most one entry
per key. -/
abbrev Facts := List (String × String)

/-- The lookup `v, ok := facts[k]`: `some v` when `ok`, `none` otherwise. -/
def Facts.get (facts : Facts) (k : String) : Option String :=
  match facts with
  | [] => none
  | (k', v) :: rest => if k' = k then some v else Facts.get rest k

/-- The assignment `facts[k] = v`. -/
def Facts.set (facts : Facts) (k v : String) : Facts :=
  (k, v) :: facts.filter (fun p => decide (p.1 ≠ k))

/-- The subject of an X.509 certificate (`pkix.Name`), of which the source
reads only the common name. -/
structure Name where
  CommonName : String
  deriving DecidableEq

/-- An X.509 certificate (`x509.Certificate`), of which the source reads only
the subject. -/
structure Certificate where
  Subject : Name
  deriving DecidableEq

/-- A decoded PEM block (`pem.Block`), of which the source reads only the
bytes. -/
structure Block where
  Bytes : List UInt8
  deriving DecidableEq

/-- The outside world of one collection: the file system, the PEM and X.509
decoders of the Go standard library, and the `subscription-manager` program.
`pemDecode` is `none` when `pem.Decode` finds no PEM block and returns a nil
block.  `run command` is the standard output of `subscription-manager command`
when `cmd.Run()` succeeds and the failure otherwise (the program could not be
started or exited with a nonzero status). -/
structure World where
  readFile : String → Except String (List UInt8)
  pemDecode : List UInt8 → Option Block
  parseCertificate : List UInt8 → Except String Certificate
  run : String → Except String String

/-- The result of a Go call that either returns or ends in a run-time panic;
no function of the source recovers from a panic. -/
inductive Outcome (α : Type) where
  | returned (a : α)
  | crash
  deriving DecidableEq

/-! ## The functions of subscription.go -/

/-- The source function `execSubManCommand`: the standard output and a nil
error, or the empty string and the wrapped error. -/
def execSubManCommand (w : World) (command : String) : String × Option String :=
  match w.run command with
  | .error e => ("", some ("`subscription-manager " ++ command ++ "` has failed: " ++ e))
  | .ok stdout => (stdout, none)

/-- The source function `LoadCertificate`.  The nil block that `pem.Decode`
returns when the file holds no PEM block is dereferenced by `block.Bytes`. -/
def LoadCertificate (w : World) (certPath : String) : Outcome (Except String Certificate) :=
  match w.readFile certPath with
  | .error e => .returned (.error e)
  | .ok certBytes =>
    match w.pemDecode certBytes with
    | none => .crash
    | some block => .returned (w.parseCertificate block.Bytes)

/-- The source function `GetHostId`. -/
def GetHostId (w : World) (c : Config) : Outcome (String × Option String) :=
  match LoadCertificate w c.HostCertPath with
  | .crash => .crash
  | .returned (.error e) => .returned ("", some e)
  | .returned (.ok cert) => .returned (cert.Subject.CommonName, none)

/-- The source function `GetUsage`. -/
def GetUsage (w : World) : String × Option String :=
  let output := (execSubManCommand w "usage").1
  match SplitN2 output with
  | [_, p1] => (TrimSpace p1, none)
  | _ => ("", some "error parsing `subscription-manager usage` output")

/-- The source function `GetServiceLevel`. -/
def GetServiceLevel (w : World) : String × Option String :=
  let output := (execSubManCommand w "service-level").1
  match SplitN2 output with
  | [_, p1] => (TrimSpace p1, none)
  | _ => ("", some "error parsing `subscription-manager service-level` output")

/-- The body of the scanning loop of `GetSubManFacts` for one line. -/
def factsLine (facts : Facts) (line : String) : Facts :=
  let line := TrimSpace line
  if line = "" ∨ HasPrefix line ";" = true ∨ HasPrefix line "#" = true then facts
  else
    match SplitN2 line with
    | [p0, p1] => facts.set (TrimSpace p0) (TrimSpace p1)
    | _ => facts

/-- The source function `GetSubManFacts`. -/
def GetSubManFacts (w : World) : Facts × Option String :=
  let output := (execSubManCommand w "facts").1
  ((scanLines output).foldl factsLine [], none)

/-- The source function `FactsToHostInfo`; the record is updated in place in
the source and returned here. -/
def FactsToHostInfo (facts : Facts) (hi : HostInfo) : HostInfo :=
  let hi := match facts.get "cpu.cpu_socket(s)" with
    | some v => { hi with SocketCount := v }
    | none => hi
  let hi := match facts.get "distribution.name" with
    | some v => { hi with Product := v }
    | none => hi
  -- AWS
  let hi := match facts.get "aws_instance_id" with
    | some _ => { hi with Billing := { hi.Billing with Marketplace := "aws" } }
    | none => hi
  let hi := match facts.get "aws_account_id" with
    | some v => { hi with Billing := { hi.Billing with MarketplaceAccount := v } }
    | none => hi
  let hi := match facts.get "aws_instance_id" with
    | some v => { hi with Billing := { hi.Billing with MarketplaceInstanceId := v } }
    | none => hi
  -- Azure
  let hi := match facts.get "azure_instance_id" with
    | some _ => { hi with Billing := { hi.Billing with Marketplace := "azure" } }
    | none => hi
  let hi := match facts.get "azure_subscription_id" with
    | some v => { hi with Billing := { hi.Billing with MarketplaceAccount := v } }
    | none => hi
  let hi := match facts.get "azure_instance_id" with
    | some v => { hi with Billing := { hi.Billing with MarketplaceInstanceId := v } }
    | none => hi
  -- GCP
  let hi := match facts.get "gcp_instance_id" with
    | some v => { hi with Billing := { hi.Billing with Marketplace := v } }
    | none => hi
  let hi := match facts.get "gcp_project_number" with
    | some v => { hi with Billing := { hi.Billing with MarketplaceAccount := v } }
    | none => hi
  let hi := match facts.get "gcp_instance_id" with
    | some v => { hi with Billing := { hi.Billing with MarketplaceInstanceId := v } }
    | none => hi
  if hi.Billing.Marketplace ≠ "" then
    { hi with Billing := { hi.Billing with Model := "marketplace" } }
  else hi

/-- The part of `LoadSubManInformation` that follows the call of `GetHostId`:
the three commands, each with its own error check. -/
def loadCommands (w : World) (hi : HostInfo) : HostInfo :=
  let hi := match GetUsage w with
    | (usage, none) => { hi with Usage := usage }
    | (_, some _) => hi
  let hi := match GetServiceLevel w with
    | (serviceLevel, none) => { hi with Support := serviceLevel }
    | (_, some _) => hi
  match GetSubManFacts w with
  | (facts, none) => FactsToHostInfo facts hi
  | (_, some _) => hi

/-- The source function `LoadSubManInformation`; the record is updated in
place in the source and returned here.  A panic in `GetHostId` is not
recovered, so that none of the later statements runs. -/
def LoadSubManInformation (w : World) (cfg : Config) (hi : HostInfo) : Outcome HostInfo :=
  match GetHostId w cfg with
  | .crash => .crash
  | .returned (hostId, none) => .returned (loadCommands w { hi with HostId := hostId })
  | .returned (_, some _) => .returned (loadCommands w hi)

/-! ## Specification vocabulary -/

/-- The text before the first colon. -/
def beforeColon (l : List Char) : List Char := l.takeWhile (fun c => decide (c ≠ ':'))

/-- The text after the first colon. -/
def afterColon (l : List Char) : List Char := (l.dropWhile (fun c => decide (c ≠ ':'))).tail

/-- The first line of a text: what stands before its first newline. -/
def firstLine (l : List Char) : List Char := l.takeWhile (fun c => decide (c ≠ '\n'))

/-- What follows the first line of a text, from its first newline on. -/
def afterFirstLine (l : List Char) : List Char := l.dropWhile (fun c => decide (c ≠ '\n'))

/-- A text is blank when it holds white space only. -/
def blank (l : List Char) : Prop := ∀ c ∈ l, isSpace c = true

instance (l : List Char) : Decidable (blank l) := by unfold blank; infer_instance

/-- The key of a line: the trimmed text before its first colon. -/
def lineKey (l : List Char) : String := ⟨trimSpaceChars (beforeColon l)⟩

/-- The value of a line: the trimmed text after its first colon. -/
def lineValue (l : List Char) : String := ⟨trimSpaceChars (afterColon l)⟩

/-- A valid line: not blank, not starting (surrounding white space apart) with
`;` or `#`, and holding a colon. -/
def validLine (l : List Char) : Prop :=
  ¬ blank l ∧ (trimSpaceChars l).head? ≠ some ';' ∧ (trimSpaceChars l).head? ≠ some '#' ∧
    ':' ∈ l

instance (l : List Char) : Decidable (validLine l) := by unfold validLine; infer_instance

/-- The last line of a list that is valid and has the given key. -/
def lastLineWithKey (lines : List (List Char)) (k : String) : Option (List Char) :=
  (lines.filter (fun l => decide (validLine l ∧ lineKey l = k))).getLast?

/-- What the loop body of `GetSubManFacts` does with a line, in terms of the
line as it stands in the output. -/
def lineStep (facts : Facts) (l : List Char) : Facts :=
  if validLine l then facts.set (lineKey l) (lineValue l) else facts

/-- The value a field ends with when the listed facts are written to it in
order: that of the last fact present, or the prior value. -/
def lastOf (prior : String) : List (Option String) → String
  | [] => prior
  | o :: os => lastOf (match o with | some v => v | none => prior) os

/-- The fact keys that `FactsToHostInfo` reads. -/
def knownKeys : List String :=
  ["cpu.cpu_socket(s)", "distribution.name", "aws_instance_id", "aws_account_id",
   "azure_instance_id", "azure_subscription_id", "gcp_instance_id", "gcp_project_number"]

/-- The value a single-value parser leaves in its field. -/
def fieldAfter (prior : String) (result : String × Option String) : String :=
  match result with
  | (value, none) => value
  | (_, some _) => prior

/-- The record after the error check that follows the call of `GetHostId`. -/
def afterHostId (hi : HostInfo) (result : String × Option String) : HostInfo :=
  match result with
  | (hostId, none) => { hi with HostId := hostId }
  | (_, some _) => hi

/-- The world in which one command has another result. -/
def withRun (w : World) (command : String) (result : Except String String) : World :=
  { w with run := fun c => if c = command then result else w.run c }

/-! ## Concrete inputs -/

/-- A world without a certificate file in which every command prints the given
text. -/
def printing (out : String) : World :=
  { readFile := fun _ => .error "no such file"
    pemDecode := fun _ => none
    parseCertificate := fun _ => .error "malformed certificate"
    run := fun _ => .ok out }

/-- A world whose certificate file is readable and holds no PEM block. -/
def noPemWorld : World :=
  { readFile := fun _ => .ok [110, 111, 116, 32, 112, 101, 109]
    pemDecode := fun _ => none
    parseCertificate := fun _ => .error "malformed certificate"
    run := fun _ => .ok "" }

/-- A world with a good certificate in which `usage` and `service-level` exit
with a nonzero status and `facts` prints two facts. -/
def failingWorld : World :=
  { readFile := fun _ => .ok []
    pemDecode := fun _ => some ⟨[]⟩
    parseCertificate := fun _ => .ok ⟨⟨"host-1"⟩⟩
    run := fun c =>
      if c = "facts" then .ok "cpu.cpu_socket(s): 2\ndistribution.name: RHEL\n"
      else .error "exit status 1" }

/-- A world with a good certificate in which `usage` and `service-level`
succeed and `facts` exits with a nonzero status. -/
def factsFailingWorld : World :=
  { readFile := fun _ => .ok []
    pemDecode := fun _ => some ⟨[]⟩
    parseCertificate := fun _ => .ok ⟨⟨"host-1"⟩⟩
    run := fun c =>
      if c = "usage" then .ok "Usage: Production\n"
      else if c = "service-level" then .ok "Service level: Premium\n"
      else .error "exit status 70" }

/-- A world whose certificate file is readable and holds no PEM block, in which
every command succeeds. -/
def noPemCommandsWorld : World :=
  { readFile := fun _ => .ok [110, 111, 116, 32, 112, 101, 109]
    pemDecode := fun _ => none
    parseCertificate := fun _ => .error "malformed certificate"
    run := fun c =>
      if c = "usage" then .ok "Usage: Production\n"
      else if c = "service-level" then .ok "Service level: Premium\n"
      else .ok "cpu.cpu_socket(s): 2\n" }

/-- A world whose certificate file is missing, in which `usage` fails and the
other two commands succeed. -/
def noCertWorld : World :=
  { readFile := fun _ => .error "no such file"
    pemDecode := fun _ => none
    parseCertificate := fun _ => .error "malformed certificate"
    run := fun c =>
      if c = "usage" then .error "exit status 70"
      else if c = "service-level" then .ok "Service level: Premium\n"
      else .ok "cpu.cpu_socket(s): 2\ndistribution.name: RHEL\n" }

/-- A record with every field unset. -/
def emptyHostInfo : HostInfo :=
  { HostId := "", Usage := "", Support := "", Product := "", SocketCount := "",
    Billing := { Marketplace := "", MarketplaceAccount := "", MarketplaceInstanceId := "",
                 Model := "" } }

/-- A record with every field set. -/
def priorHostInfo : HostInfo :=
  { HostId := "h0", Usage := "u0", Support := "s0", Product := "p0", SocketCount := "1",
    Billing := { Marketplace := "m0", MarketplaceAccount := "a0",
                 MarketplaceInstanceId := "i0", Model := "" } }

/-! ## Lemmas on the string functions -/

theorem cutColon_eq (l : List Char) :
    cutColon l = if ':' ∈ l then some (beforeColon l, afterColon l) else none := by
  induction l with
  | nil => simp [cutColon]
  | cons c cs ih =>
    by_cases hc : c = ':'
    · subst hc
      simp [cutColon, beforeColon, afterColon]
    · have hc' : ¬ ':' = c := fun h => hc h.symm
      by_cases hm : ':' ∈ cs
      · simp [cutColon, hc, hc', ih, hm, beforeColon, afterColon]
      · simp [cutColon, hc, hc', ih, hm]

theorem trimSpaceChars_eq (l : List Char) :
    trimSpaceChars l = (l.dropWhile isSpace).rdropWhile isSpace := rfl

theorem rdropWhile_append_blank (m b : List Char) (hb : blank b) :
    (m ++ b).rdropWhile isSpace = m.rdropWhile isSpace := by
  induction b using List.reverseRecOn with
  | nil => simp
  | append_singleton b x ih =>
    have hx : isSpace x = true := hb x (by simp)
    rw [← List.append_assoc, List.rdropWhile_concat_pos _ _ _ hx]
    exact ih (fun c hc => hb c (by simp [hc]))

theorem trimSpaceChars_append_blank (m b : List Char) (hb : blank b) :
    trimSpaceChars (m ++ b) = trimSpaceChars m := by
  rw [trimSpaceChars_eq, trimSpaceChars_eq]
  by_cases hm : blank m
  · have h1 : (m ++ b).dropWhile isSpace = [] := by
      rw [List.dropWhile_eq_nil_iff]
      intro c hc
      rcases List.mem_append.1 hc with h | h
      · exact hm c h
      · exact hb c h
    have h2 : m.dropWhile isSpace = [] := List.dropWhile_eq_nil_iff.2 hm
    rw [h1, h2]
  · have h2 : (m.dropWhile isSpace).isEmpty = false := by
      cases h : m.dropWhile isSpace with
      | nil => exact absurd (List.dropWhile_eq_nil_iff.1 h) hm
      | cons _ _ => rfl
    rw [List.dropWhile_append, h2]
    simp only [Bool.false_eq_true, if_false]
    exact rdropWhile_append_blank _ _ hb

theorem trimSpaceChars_blank_append (a m : List Char) (ha : blank a) :
    trimSpaceChars (a ++ m) = trimSpaceChars m := by
  rw [trimSpaceChars_eq, trimSpaceChars_eq, List.dropWhile_append_of_pos ha]

theorem trimSpaceChars_of_blank (l : List Char) (h : blank l) : trimSpaceChars l = [] := by
  rw [trimSpaceChars_eq, List.dropWhile_eq_nil_iff.2 h]; rfl

/-- Every text is its trimmed text between two blank texts. -/
theorem trimSpaceChars_decomp (l : List Char) :
    ∃ a b, blank a ∧ blank b ∧ l = a ++ trimSpaceChars l ++ b := by
  refine ⟨l.takeWhile isSpace, (l.dropWhile isSpace).rtakeWhile isSpace, ?_, ?_, ?_⟩
  · intro c hc
    exact (List.mem_takeWhile_imp hc)
  · intro c hc
    exact List.mem_rtakeWhile_imp hc
  · rw [trimSpaceChars_eq, List.append_assoc]
    have : (l.dropWhile isSpace).rdropWhile isSpace ++ (l.dropWhile isSpace).rtakeWhile isSpace
        = l.dropWhile isSpace := by
      simp only [List.rdropWhile, List.rtakeWhile, ← List.reverse_append,
        List.takeWhile_append_dropWhile, List.reverse_reverse]
    rw [this, List.takeWhile_append_dropWhile]

theorem trimSpaceChars_eq_nil_iff (l : List Char) : trimSpaceChars l = [] ↔ blank l := by
  constructor
  · intro h
    obtain ⟨a, b, ha, hb, hl⟩ := trimSpaceChars_decomp l
    rw [h] at hl
    rw [hl]
    intro c hc
    simp only [List.append_nil, List.mem_append] at hc
    rcases hc with hc | hc
    · exact ha c hc
    · exact hb c hc
  · exact trimSpaceChars_of_blank l

theorem trimSpaceChars_pad (a m b : List Char) (ha : blank a) (hb : blank b) :
    trimSpaceChars (a ++ m ++ b) = trimSpaceChars m := by
  rw [trimSpaceChars_append_blank _ _ hb, trimSpaceChars_blank_append _ _ ha]

theorem trimSpaceChars_idem (l : List Char) :
    trimSpaceChars (trimSpaceChars l) = trimSpaceChars l := by
  obtain ⟨a, b, ha, hb, hl⟩ := trimSpaceChars_decomp l
  have := trimSpaceChars_pad a (trimSpaceChars l) b ha hb
  rw [← hl] at this
  exact this.symm

theorem colon_not_mem_blank (a : List Char) (ha : blank a) : ':' ∉ a := by
  intro h
  have := ha _ h
  revert this
  decide

theorem blank_pad (a m b : List Char) (ha : blank a) (hb : blank b) :
    blank (a ++ m ++ b) ↔ blank m := by
  unfold blank at *
  constructor
  · intro h c hc
    exact h c (by simp [hc])
  · intro h c hc
    simp only [List.mem_append] at hc
    rcases hc with (hc | hc) | hc
    · exact ha c hc
    · exact h c hc
    · exact hb c hc

theorem colon_mem_pad (a m b : List Char) (ha : blank a) (hb : blank b) :
    ':' ∈ a ++ m ++ b ↔ ':' ∈ m := by
  have h1 := colon_not_mem_blank a ha
  have h2 := colon_not_mem_blank b hb
  simp [h1, h2]

theorem takeWhile_append_of_mem (m b : List Char) (h : ':' ∈ m) :
    (m ++ b).takeWhile (fun c => decide (c ≠ ':')) = m.takeWhile (fun c => decide (c ≠ ':')) := by
  induction m with
  | nil => simp at h
  | cons c cs ih =>
    by_cases hc : c = ':'
    · subst hc; simp
    · have : ':' ∈ cs := by
        rcases List.mem_cons.1 h with h | h
        · exact absurd h.symm hc
        · exact h
      simpa [hc] using ih this

theorem dropWhile_append_of_mem (m b : List Char) (h : ':' ∈ m) :
    (m ++ b).dropWhile (fun c => decide (c ≠ ':')) =
      m.dropWhile (fun c => decide (c ≠ ':')) ++ b := by
  induction m with
  | nil => simp at h
  | cons c cs ih =>
    by_cases hc : c = ':'
    · subst hc; simp
    · have : ':' ∈ cs := by
        rcases List.mem_cons.1 h with h | h
        · exact absurd h.symm hc
        · exact h
      simpa [hc] using ih this

theorem dropWhile_ne_nil_of_mem (m : List Char) (h : ':' ∈ m) :
    m.dropWhile (fun c => decide (c ≠ ':')) ≠ [] := by
  intro hnil
  have := List.dropWhile_eq_nil_iff.1 hnil _ h
  simp at this

theorem beforeColon_pad (a m b : List Char) (ha : blank a) (h : ':' ∈ m) :
    beforeColon (a ++ m ++ b) = a ++ beforeColon m := by
  have ha' : ∀ c ∈ a, (fun c => decide (c ≠ ':')) c = true := by
    intro c hc
    have := colon_not_mem_blank a ha
    simp only [ne_eq, decide_not, Bool.not_eq_eq_eq_not, Bool.not_true, decide_eq_false_iff_not]
    rintro rfl
    exact this hc
  unfold beforeColon
  rw [List.append_assoc, List.takeWhile_append_of_pos ha', takeWhile_append_of_mem m b h]

theorem afterColon_pad (a m b : List Char) (ha : blank a) (h : ':' ∈ m) :
    afterColon (a ++ m ++ b) = afterColon m ++ b := by
  have ha' : ∀ c ∈ a, (fun c => decide (c ≠ ':')) c = true := by
    intro c hc
    have := colon_not_mem_blank a ha
    simp only [ne_eq, decide_not, Bool.not_eq_eq_eq_not, Bool.not_true, decide_eq_false_iff_not]
    rintro rfl
    exact this hc
  unfold afterColon
  rw [List.append_assoc, List.dropWhile_append_of_pos ha', dropWhile_append_of_mem m b h]
  cases hd : m.dropWhile (fun c => decide (c ≠ ':')) with
  | nil => exact absurd hd (dropWhile_ne_nil_of_mem m h)
  | cons _ _ => rfl

theorem lineKey_pad (a m b : List Char) (ha : blank a) (h : ':' ∈ m) :
    lineKey (a ++ m ++ b) = lineKey m := by
  unfold lineKey
  rw [beforeColon_pad a m b ha h, trimSpaceChars_blank_append _ _ ha]

theorem lineValue_pad (a m b : List Char) (ha : blank a) (hb : blank b) (h : ':' ∈ m) :
    lineValue (a ++ m ++ b) = lineValue m := by
  unfold lineValue
  rw [afterColon_pad a m b ha h, trimSpaceChars_append_blank _ _ hb]

theorem validLine_pad (a m b : List Char) (ha : blank a) (hb : blank b) :
    validLine (a ++ m ++ b) ↔ validLine m := by
  unfold validLine
  rw [trimSpaceChars_pad a m b ha hb, blank_pad a m b ha hb, colon_mem_pad a m b ha hb]

theorem isPrefixOf_singleton (c : Char) (l : List Char) :
    [c].isPrefixOf l = true ↔ l.head? = some c := by
  cases l with
  | nil => simp [List.isPrefixOf]
  | cons d ds =>
    simp only [List.isPrefixOf, Bool.and_true, beq_iff_eq, List.head?_cons, Option.some.injEq]
    exact eq_comm

theorem factsLine_eq (facts : Facts) (s : String) :
    factsLine facts s =
      if validLine s.data then facts.set (lineKey s.data) (lineValue s.data) else facts := by
  obtain ⟨a, b, ha, hb, hl⟩ := trimSpaceChars_decomp s.data
  have hv := validLine_pad a (trimSpaceChars s.data) b ha hb
  rw [← hl] at hv
  by_cases hvalid : validLine (trimSpaceChars s.data)
  · have hcolon : ':' ∈ trimSpaceChars s.data := hvalid.2.2.2
    have hk := lineKey_pad a _ b ha hcolon
    have hval := lineValue_pad a _ b ha hb hcolon
    rw [← hl] at hk hval
    rw [if_pos (hv.2 hvalid), hk, hval]
    obtain ⟨h1, h2, h3, h4⟩ := hvalid
    rw [trimSpaceChars_idem] at h2 h3
    have hne : trimSpaceChars s.data ≠ [] := fun h =>
      h1 ((trimSpaceChars_eq_nil_iff _).1 (by rw [trimSpaceChars_idem]; exact h))
    unfold factsLine
    simp only [TrimSpace, HasPrefix, SplitN2, cutColon_eq, hcolon, if_true]
    rw [if_neg]
    · rfl
    · rintro (h | h | h)
      · exact hne (by simpa using congrArg String.data h)
      · exact h2 ((isPrefixOf_singleton _ _).1 h)
      · exact h3 ((isPrefixOf_singleton _ _).1 h)
  · rw [if_neg (fun h => hvalid (hv.1 h))]
    unfold factsLine
    simp only [TrimSpace, HasPrefix, SplitN2, cutColon_eq]
    unfold validLine at hvalid
    rw [trimSpaceChars_idem] at hvalid
    by_cases h1 : trimSpaceChars s.data = []
    · simp [h1]
    · have hnb : ¬ blank (trimSpaceChars s.data) := fun h =>
        h1 (by rw [← trimSpaceChars_idem]; exact trimSpaceChars_of_blank _ h)
      by_cases h2 : (trimSpaceChars s.data).head? = some ';'
      · rw [if_pos]
        right; left
        exact (isPrefixOf_singleton _ _).2 h2
      · by_cases h3 : (trimSpaceChars s.data).head? = some '#'
        · rw [if_pos]
          right; right
          exact (isPrefixOf_singleton _ _).2 h3
        · have h4 : ':' ∉ trimSpaceChars s.data := fun h => hvalid ⟨hnb, h2, h3, h⟩
          simp [h4]

/-! ## Lemmas on the fact map and the scanner -/

theorem Facts.get_filter_ne (facts : Facts) (k k' : String) :
    Facts.get (facts.filter (fun p => decide (p.1 ≠ k))) k' =
      if k' = k then none else Facts.get facts k' := by
  induction facts with
  | nil => simp [Facts.get]
  | cons p rest ih =>
    obtain ⟨pk, pv⟩ := p
    by_cases h1 : pk = k
    · subst h1
      by_cases h2 : k' = pk
      · subst h2; simpa [List.filter, Facts.get] using ih
      · have h3 : ¬ pk = k' := fun h => h2 h.symm
        simpa [List.filter, Facts.get, h2, h3] using ih
    · by_cases h2 : pk = k'
      · subst h2
        simp [List.filter, Facts.get, h1]
      · simp only [List.filter, ne_eq, h1, not_false_eq_true, decide_True, Facts.get, h2, if_false]
        exact ih

theorem Facts.get_set (facts : Facts) (k v k' : String) :
    Facts.get (Facts.set facts k v) k' = if k = k' then some v else Facts.get facts k' := by
  unfold Facts.set
  by_cases h : k = k'
  · subst h; simp [Facts.get]
  · have h' : ¬ k' = k := fun e => h e.symm
    simp only [Facts.get, h, if_false]
    rw [Facts.get_filter_ne, if_neg h']

theorem foldl_lineStep_get (lines : List (List Char)) (facts : Facts) (k : String) :
    Facts.get (lines.foldl lineStep facts) k =
      match lastLineWithKey lines k with
      | some l => some (lineValue l)
      | none => Facts.get facts k := by
  induction lines using List.reverseRecOn with
  | nil => simp [lastLineWithKey]
  | append_singleton ls x ih =>
    rw [List.foldl_append]
    simp only [List.foldl_cons, List.foldl_nil]
    unfold lastLineWithKey at ih ⊢
    rw [List.filter_append]
    by_cases hx : validLine x ∧ lineKey x = k
    · have h1 : List.filter (fun l => decide (validLine l ∧ lineKey l = k)) [x] = [x] := by
        simp [List.filter, hx]
      rw [h1, List.getLast?_concat]
      simp only [lineStep, hx.1, if_true, Facts.get_set, hx.2]
    · have h1 : List.filter (fun l => decide (validLine l ∧ lineKey l = k)) [x] = [] := by
        simp only [List.filter, hx, decide_False]
      rw [h1, List.append_nil, ← ih]
      by_cases hv : validLine x
      · have hk : ¬ lineKey x = k := fun h => hx ⟨hv, h⟩
        simp only [lineStep, hv, if_true, Facts.get_set, hk, if_false]
      · simp only [lineStep, hv, if_false]

theorem dropCR_eq (l : List Char) : dropCR l = l ∨ l = dropCR l ++ ['\r'] := by
  unfold dropCR
  by_cases h : l.getLast? = some '\r'
  · right
    rw [if_pos h]
    exact (List.dropLast_append_getLast? _ h).symm
  · left
    rw [if_neg h]

theorem blank_cr : blank ['\r'] := by decide

theorem lineStep_dropCR (facts : Facts) (l : List Char) :
    lineStep facts (dropCR l) = lineStep facts l := by
  rcases dropCR_eq l with h | h
  · rw [h]
  · have hv := validLine_pad [] (dropCR l) ['\r'] (by intro c hc; simp at hc) blank_cr
    rw [List.nil_append, ← h] at hv
    unfold lineStep
    by_cases hvalid : validLine (dropCR l)
    · have hk := lineKey_pad [] (dropCR l) ['\r'] (by intro c hc; simp at hc) hvalid.2.2.2
      have hval := lineValue_pad [] (dropCR l) ['\r'] (by intro c hc; simp at hc) blank_cr
        hvalid.2.2.2
      rw [List.nil_append, ← h] at hk hval
      rw [if_pos hvalid, if_pos (hv.2 hvalid), hk, hval]
    · rw [if_neg hvalid, if_neg (fun h' => hvalid (hv.1 h'))]

theorem factsLine_dropCR (facts : Facts) (l : List Char) :
    factsLine facts ⟨dropCR l⟩ = lineStep facts l := by
  rw [factsLine_eq]
  exact lineStep_dropCR facts l

theorem not_validLine_nil : ¬ validLine [] := by
  intro h
  exact h.1 (by intro c hc; simp at hc)

theorem lastLineWithKey_rawLines (input : List Char) (k : String) :
    lastLineWithKey (rawLines input) k = lastLineWithKey (splitNewline input) k := by
  unfold rawLines
  simp only
  by_cases h : (splitNewline input).getLast? = some []
  · rw [if_pos h]
    have h2 := List.dropLast_append_getLast? _ h
    conv_rhs => rw [← h2]
    unfold lastLineWithKey
    rw [List.filter_append]
    have h1 : List.filter (fun l => decide (validLine l ∧ lineKey l = k)) [[]] = [] := by
      simp [List.filter, not_validLine_nil]
    rw [h1, List.append_nil]
  · rw [if_neg h]

theorem rawLines_subset (input : List Char) (l : List Char) (h : l ∈ rawLines input) :
    l ∈ splitNewline input := by
  unfold rawLines at h
  simp only at h
  split at h
  · exact List.mem_of_mem_dropLast h
  · exact h

theorem scanLines_of_short (input : String)
    (hlen : ∀ l ∈ splitNewline input.data, utf8Len l < MaxScanTokenSize) :
    scanLines input = (rawLines input.data).map (fun l => String.mk (dropCR l)) := by
  unfold scanLines
  congr 1
  rw [List.takeWhile_eq_self_iff]
  intro l hl
  exact decide_eq_true (hlen l (rawLines_subset _ _ hl))

theorem foldl_factsLine_map (lines : List (List Char)) (facts : Facts) :
    (lines.map (fun l => String.mk (dropCR l))).foldl factsLine facts =
      lines.foldl lineStep facts := by
  induction lines generalizing facts with
  | nil => rfl
  | cons l ls ih =>
    simp only [List.map_cons, List.foldl_cons, factsLine_dropCR]
    exact ih _

theorem splitNewline_append (pre rest : List Char) (h : '\n' ∉ pre) :
    splitNewline (pre ++ '\n' :: rest) = pre :: splitNewline rest := by
  induction pre with
  | nil => simp [splitNewline]
  | cons c cs ih =>
    have hc : ¬ c = '\n' := fun e => h (by simp [e])
    have hcs : '\n' ∉ cs := fun e => h (by simp [e])
    rw [List.cons_append, splitNewline, if_neg hc, ih hcs]

/-! ## Lemmas on the fact mapper -/

/-- The record that `FactsToHostInfo` returns, field by field. -/
theorem FactsToHostInfo_eq (facts : Facts) (hi : HostInfo) :
    FactsToHostInfo facts hi =
      { HostId := hi.HostId
        Usage := hi.Usage
        Support := hi.Support
        Product := lastOf hi.Product [facts.get "distribution.name"]
        SocketCount := lastOf hi.SocketCount [facts.get "cpu.cpu_socket(s)"]
        Billing :=
          { Marketplace := lastOf hi.Billing.Marketplace
              [(facts.get "aws_instance_id").map (fun _ => "aws"),
               (facts.get "azure_instance_id").map (fun _ => "azure"),
               facts.get "gcp_instance_id"]
            MarketplaceAccount := lastOf hi.Billing.MarketplaceAccount
              [facts.get "aws_account_id", facts.get "azure_subscription_id",
               facts.get "gcp_project_number"]
            MarketplaceInstanceId := lastOf hi.Billing.MarketplaceInstanceId
              [facts.get "aws_instance_id", facts.get "azure_instance_id",
               facts.get "gcp_instance_id"]
            Model :=
              if lastOf hi.Billing.Marketplace
                  [(facts.get "aws_instance_id").map (fun _ => "aws"),
                   (facts.get "azure_instance_id").map (fun _ => "azure"),
                   facts.get "gcp_instance_id"] ≠ "" then "marketplace"
              else hi.Billing.Model } } := by
  obtain ⟨hid, us, su, pr, so, ⟨bm, ba, bi, bo⟩⟩ := hi
  cases h1 : facts.get "cpu.cpu_socket(s)" <;> cases h2 : facts.get "distribution.name" <;>
  cases h3 : facts.get "aws_instance_id" <;> cases h4 : facts.get "aws_account_id" <;>
  cases h5 : facts.get "azure_instance_id" <;> cases h6 : facts.get "azure_subscription_id" <;>
  cases h7 : facts.get "gcp_instance_id" <;> cases h8 : facts.get "gcp_project_number" <;>
  simp only [FactsToHostInfo, h1, h2, h3, h4, h5, h6, h7, h8, lastOf, Option.map] <;>
  split <;> simp_all

/-! ## Claims on the fact mapper -/

/-- Claim C3: when the facts hold `aws_instance_id` and `aws_account_id` and no
Azure or GCP fact key, then whatever the starting record, the billing record
ends with Marketplace `aws`, Model `marketplace`, MarketplaceAccount the value
of `aws_account_id` and MarketplaceInstanceId the value of `aws_instance_id`. -/
theorem FactsToHostInfo_aws (facts : Facts) (hi : HostInfo) (instanceId account : String)
    (hinst : facts.get "aws_instance_id" = some instanceId)
    (hacc : facts.get "aws_account_id" = some account)
    (h1 : facts.get "azure_instance_id" = none)
    (h2 : facts.get "azure_subscription_id" = none)
    (h3 : facts.get "gcp_instance_id" = none)
    (h4 : facts.get "gcp_project_number" = none) :
    (FactsToHostInfo facts hi).Billing.Marketplace = "aws" ∧
    (FactsToHostInfo facts hi).Billing.Model = "marketplace" ∧
    (FactsToHostInfo facts hi).Billing.MarketplaceAccount = account ∧
    (FactsToHostInfo facts hi).Billing.MarketplaceInstanceId = instanceId := by
  rw [FactsToHostInfo_eq]
  simp [hinst, hacc, h1, h2, h3, h4, lastOf]

/-- Claim C3, at the facts `aws_instance_id: i-0a1`, `aws_account_id:
111122223333` and a starting record with every field set. -/
theorem FactsToHostInfo_aws_witness :
    (FactsToHostInfo [("aws_instance_id", "i-0a1"), ("aws_account_id", "111122223333")]
        priorHostInfo).Billing.Marketplace = "aws" ∧
    (FactsToHostInfo [("aws_instance_id", "i-0a1"), ("aws_account_id", "111122223333")]
        priorHostInfo).Billing.Model = "marketplace" ∧
    (FactsToHostInfo [("aws_instance_id", "i-0a1"), ("aws_account_id", "111122223333")]
        priorHostInfo).Billing.MarketplaceAccount = "111122223333" ∧
    (FactsToHostInfo [("aws_instance_id", "i-0a1"), ("aws_account_id", "111122223333")]
        priorHostInfo).Billing.MarketplaceInstanceId = "i-0a1" :=
  FactsToHostInfo_aws [("aws_instance_id", "i-0a1"), ("aws_account_id", "111122223333")]
    priorHostInfo "i-0a1" "111122223333" (by decide) (by decide) (by decide) (by decide)
    (by decide) (by decide)

/-- Claim C4: the code does not give the marketplace identifier `gcp`.  On the
facts `gcp_instance_id: 4711`, `gcp_project_number: 42` the billing record ends
with Marketplace `4711`, the instance id, where the AWS and Azure branches write
the constants `aws` and `azure`; the value is none of `aws`, `azure`, `gcp` and
not the prior value. -/
theorem FactsToHostInfo_gcp_marketplace_is_instance_id :
    (FactsToHostInfo [("gcp_instance_id", "4711"), ("gcp_project_number", "42")]
        emptyHostInfo).Billing =
      { Marketplace := "4711", MarketplaceAccount := "42", MarketplaceInstanceId := "4711",
        Model := "marketplace" } ∧
    (FactsToHostInfo [("aws_instance_id", "i-0a1")] emptyHostInfo).Billing.Marketplace = "aws" ∧
    (FactsToHostInfo [("azure_instance_id", "vm-7")] emptyHostInfo).Billing.Marketplace
      = "azure" := by
  decide

/-- Claim C5: the code does not set the billing model for an empty
`gcp_instance_id`.  The output line `gcp_instance_id:` gives the fact
`gcp_instance_id` the empty value; Marketplace is then overwritten with the
empty string and Model is left as it was, also when `aws_instance_id` is
present as well. -/
theorem FactsToHostInfo_empty_gcp_instance_id_no_model :
    Facts.get (GetSubManFacts (printing "gcp_instance_id:")).1 "gcp_instance_id" = some "" ∧
    (FactsToHostInfo (GetSubManFacts (printing "gcp_instance_id:")).1
        emptyHostInfo).Billing.Model = "" ∧
    (FactsToHostInfo [("aws_instance_id", "i-0a1"), ("gcp_instance_id", "")]
        emptyHostInfo).Billing.Model = "" := by
  decide

/-- Claim C9: two fact maps that agree on the eight known keys, in presence and
in value, give equal records from every starting record; in particular writing
any other key to a fact map does not change the result. -/
theorem FactsToHostInfo_ignores_unknown_keys :
    (∀ (f1 f2 : Facts) (hi : HostInfo), (∀ k ∈ knownKeys, f1.get k = f2.get k) →
      FactsToHostInfo f1 hi = FactsToHostInfo f2 hi) ∧
    (∀ (facts : Facts) (k v : String) (hi : HostInfo), k ∉ knownKeys →
      FactsToHostInfo (facts.set k v) hi = FactsToHostInfo facts hi) := by
  have main : ∀ (f1 f2 : Facts) (hi : HostInfo), (∀ k ∈ knownKeys, f1.get k = f2.get k) →
      FactsToHostInfo f1 hi = FactsToHostInfo f2 hi := by
    intro f1 f2 hi h
    simp only [knownKeys, List.mem_cons, List.mem_singleton, forall_eq_or_imp, forall_eq,
      List.not_mem_nil, false_imp_iff, implies_true, and_true] at h
    obtain ⟨h1, h2, h3, h4, h5, h6, h7, h8⟩ := h
    rw [FactsToHostInfo_eq, FactsToHostInfo_eq, h1, h2, h3, h4, h5, h6, h7, h8]
  refine ⟨main, ?_⟩
  intro facts k v hi hk
  apply main
  intro k' hk'
  rw [Facts.get_set, if_neg]
  rintro rfl
  exact hk hk'

/-- Claim C9, at two fact maps that differ in the unknown keys `virt.is_guest`
and `uname.machine` only. -/
theorem FactsToHostInfo_ignores_unknown_keys_witness :
    FactsToHostInfo [("virt.is_guest", "true"), ("distribution.name", "RHEL")] priorHostInfo =
      FactsToHostInfo [("distribution.name", "RHEL"), ("uname.machine", "x86_64")]
        priorHostInfo :=
  FactsToHostInfo_ignores_unknown_keys.1
    [("virt.is_guest", "true"), ("distribution.name", "RHEL")]
    [("distribution.name", "RHEL"), ("uname.machine", "x86_64")] priorHostInfo (by decide)

/-- Claim C10 as stated fails: with the AWS facts `aws_instance_id`,
`aws_account_id` and the single Azure fact `azure_instance_id`, two providers
are present and the last one is Azure, yet MarketplaceAccount ends with the AWS
account. -/
theorem FactsToHostInfo_earlier_provider_survives :
    (FactsToHostInfo
        [("aws_instance_id", "i-0a1"), ("aws_account_id", "111122223333"),
         ("azure_instance_id", "vm-7")] emptyHostInfo).Billing =
      { Marketplace := "azure", MarketplaceAccount := "111122223333",
        MarketplaceInstanceId := "vm-7", Model := "marketplace" } := by
  decide

/-- Claim C10, amended: each billing field is decided on its own.
MarketplaceAccount ends with the value of the last fact present among
`aws_account_id`, `azure_subscription_id`, `gcp_project_number`, and
MarketplaceInstanceId with that of the last fact present among
`aws_instance_id`, `azure_instance_id`, `gcp_instance_id`, or with the prior
value when none is present; when `gcp_instance_id` is absent, Marketplace ends
with `azure` if `azure_instance_id` is present, else with `aws` if
`aws_instance_id` is present, else with its prior value. -/
theorem FactsToHostInfo_last_write_wins (facts : Facts) (hi : HostInfo) :
    (FactsToHostInfo facts hi).Billing.MarketplaceAccount =
      (match facts.get "gcp_project_number", facts.get "azure_subscription_id",
          facts.get "aws_account_id" with
        | some v, _, _ => v
        | none, some v, _ => v
        | none, none, some v => v
        | none, none, none => hi.Billing.MarketplaceAccount) ∧
    (FactsToHostInfo facts hi).Billing.MarketplaceInstanceId =
      (match facts.get "gcp_instance_id", facts.get "azure_instance_id",
          facts.get "aws_instance_id" with
        | some v, _, _ => v
        | none, some v, _ => v
        | none, none, some v => v
        | none, none, none => hi.Billing.MarketplaceInstanceId) ∧
    (facts.get "gcp_instance_id" = none →
      (FactsToHostInfo facts hi).Billing.Marketplace =
        match facts.get "azure_instance_id", facts.get "aws_instance_id" with
        | some _, _ => "azure"
        | none, some _ => "aws"
        | none, none => hi.Billing.Marketplace) := by
  rw [FactsToHostInfo_eq]
  refine ⟨?_, ?_, ?_⟩
  · cases facts.get "gcp_project_number" <;> cases facts.get "azure_subscription_id" <;>
      cases facts.get "aws_account_id" <;> rfl
  · cases facts.get "gcp_instance_id" <;> cases facts.get "azure_instance_id" <;>
      cases facts.get "aws_instance_id" <;> rfl
  · intro h
    simp only [h, lastOf]
    cases facts.get "azure_instance_id" <;> cases facts.get "aws_instance_id" <;> rfl

/-- Claim C10, amended, at AWS facts followed by both Azure facts: the Azure
values replace the AWS values in every field. -/
theorem FactsToHostInfo_last_write_wins_witness :
    (FactsToHostInfo
        [("aws_instance_id", "i-0a1"), ("aws_account_id", "111122223333"),
         ("azure_instance_id", "vm-7"), ("azure_subscription_id", "sub-9")]
        emptyHostInfo).Billing.Marketplace = "azure" :=
  (FactsToHostInfo_last_write_wins
    [("aws_instance_id", "i-0a1"), ("aws_account_id", "111122223333"),
     ("azure_instance_id", "vm-7"), ("azure_subscription_id", "sub-9")] emptyHostInfo).2.2
    (by decide)

/-! ## Lemmas on the single-value parsers -/

theorem GetUsage_of_stdout (w : World) (out : String) (h : w.run "usage" = .ok out) :
    GetUsage w =
      if ':' ∈ out.data then (⟨trimSpaceChars (afterColon out.data)⟩, none)
      else ("", some "error parsing `subscription-manager usage` output") := by
  unfold GetUsage execSubManCommand
  rw [h]
  simp only [SplitN2, cutColon_eq]
  by_cases hc : ':' ∈ out.data
  · simp only [hc, if_true, TrimSpace]
  · simp only [hc, if_false]

theorem GetServiceLevel_of_stdout (w : World) (out : String)
    (h : w.run "service-level" = .ok out) :
    GetServiceLevel w =
      if ':' ∈ out.data then (⟨trimSpaceChars (afterColon out.data)⟩, none)
      else ("", some "error parsing `subscription-manager service-level` output") := by
  unfold GetServiceLevel execSubManCommand
  rw [h]
  simp only [SplitN2, cutColon_eq]
  by_cases hc : ':' ∈ out.data
  · simp only [hc, if_true, TrimSpace]
  · simp only [hc, if_false]

theorem GetUsage_of_failure (w : World) (e : String) (h : w.run "usage" = .error e) :
    GetUsage w = ("", some "error parsing `subscription-manager usage` output") := by
  unfold GetUsage execSubManCommand
  rw [h]
  rfl

theorem GetServiceLevel_of_failure (w : World) (e : String)
    (h : w.run "service-level" = .error e) :
    GetServiceLevel w =
      ("", some "error parsing `subscription-manager service-level` output") := by
  unfold GetServiceLevel execSubManCommand
  rw [h]
  rfl

theorem colon_mem_of_firstLine (l : List Char) (h : ':' ∈ firstLine l) : ':' ∈ l :=
  (List.takeWhile_prefix _).subset h

theorem afterColon_of_one_line (l : List Char) (h : ':' ∈ firstLine l)
    (hb : blank (afterFirstLine l)) :
    trimSpaceChars (afterColon l) = trimSpaceChars (afterColon (firstLine l)) := by
  have hl : l = [] ++ firstLine l ++ afterFirstLine l := by
    simp [firstLine, afterFirstLine]
  have hnil : blank [] := by intro c hc; simp at hc
  conv_lhs => rw [hl]
  rw [afterColon_pad [] _ _ hnil h, trimSpaceChars_append_blank _ _ hb]

/-! ## Claims on the single-value parsers -/

/-- Claim C1 as stated fails: the first line of the output `Usage: Production`,
newline, `extra` holds a colon and the trimmed text after it is `Production`,
yet both parsers return the two lines `Production`, newline, `extra`. -/
theorem GetUsage_first_line_counterexample :
    ':' ∈ firstLine "Usage: Production\nextra".data ∧
    String.mk (trimSpaceChars (afterColon (firstLine "Usage: Production\nextra".data)))
      = "Production" ∧
    GetUsage (printing "Usage: Production\nextra") = ("Production\nextra", none) ∧
    GetServiceLevel (printing "Usage: Production\nextra") = ("Production\nextra", none) := by
  decide

/-- Claim C1, amended: for every output whose first line holds a colon, each of
`GetUsage` and `GetServiceLevel` returns, with no error, the trimmed text of
the whole output after its first colon; this is the trimmed text of the first
line after its first colon whenever nothing but white space follows the first
line. -/
theorem GetUsage_value_after_first_colon (w : World) (out : String)
    (hcolon : ':' ∈ firstLine out.data) :
    (w.run "usage" = .ok out →
      GetUsage w = (⟨trimSpaceChars (afterColon out.data)⟩, none) ∧
      (blank (afterFirstLine out.data) →
        GetUsage w = (⟨trimSpaceChars (afterColon (firstLine out.data))⟩, none))) ∧
    (w.run "service-level" = .ok out →
      GetServiceLevel w = (⟨trimSpaceChars (afterColon out.data)⟩, none) ∧
      (blank (afterFirstLine out.data) →
        GetServiceLevel w = (⟨trimSpaceChars (afterColon (firstLine out.data))⟩, none))) := by
  have hc := colon_mem_of_firstLine _ hcolon
  constructor
  · intro h
    have h1 : GetUsage w = (⟨trimSpaceChars (afterColon out.data)⟩, none) := by
      rw [GetUsage_of_stdout w out h, if_pos hc]
    refine ⟨h1, fun hb => ?_⟩
    rw [h1, afterColon_of_one_line _ hcolon hb]
  · intro h
    have h1 : GetServiceLevel w = (⟨trimSpaceChars (afterColon out.data)⟩, none) := by
      rw [GetServiceLevel_of_stdout w out h, if_pos hc]
    refine ⟨h1, fun hb => ?_⟩
    rw [h1, afterColon_of_one_line _ hcolon hb]

/-- Claim C1, amended, at the output `Usage: Production` followed by a
newline: the usage parser returns `Production`. -/
theorem GetUsage_value_after_first_colon_witness :
    GetUsage (printing "Usage: Production\n") = ("Production", none) :=
  ((GetUsage_value_after_first_colon (printing "Usage: Production\n") "Usage: Production\n"
    (by decide)).1 rfl).2 (by decide)

/-- Claim C8: each of `GetUsage` and `GetServiceLevel` returns the empty string
and its parse error when the output of its command holds no colon, returns no
error when the output holds a colon, and returns the empty string and the
parse error when the command fails. -/
theorem GetUsage_fails_iff_no_colon (w : World) :
    (∀ out, w.run "usage" = .ok out →
      (':' ∉ out.data →
        GetUsage w = ("", some "error parsing `subscription-manager usage` output")) ∧
      (':' ∈ out.data → (GetUsage w).2 = none)) ∧
    (∀ e, w.run "usage" = .error e →
      GetUsage w = ("", some "error parsing `subscription-manager usage` output")) ∧
    (∀ out, w.run "service-level" = .ok out →
      (':' ∉ out.data →
        GetServiceLevel w =
          ("", some "error parsing `subscription-manager service-level` output")) ∧
      (':' ∈ out.data → (GetServiceLevel w).2 = none)) ∧
    (∀ e, w.run "service-level" = .error e →
      GetServiceLevel w =
        ("", some "error parsing `subscription-manager service-level` output")) := by
  refine ⟨fun out h => ⟨fun hc => ?_, fun hc => ?_⟩, fun e h => GetUsage_of_failure w e h,
    fun out h => ⟨fun hc => ?_, fun hc => ?_⟩, fun e h => GetServiceLevel_of_failure w e h⟩
  · rw [GetUsage_of_stdout w out h, if_neg hc]
  · rw [GetUsage_of_stdout w out h, if_pos hc]
  · rw [GetServiceLevel_of_stdout w out h, if_neg hc]
  · rw [GetServiceLevel_of_stdout w out h, if_pos hc]

/-- Claim C8, at the output `Usage not set`, which holds no colon, and at a
failed command. -/
theorem GetUsage_fails_iff_no_colon_witness :
    GetUsage (printing "Usage not set")
      = ("", some "error parsing `subscription-manager usage` output") ∧
    GetUsage failingWorld = ("", some "error parsing `subscription-manager usage` output") :=
  ⟨((GetUsage_fails_iff_no_colon (printing "Usage not set")).1 "Usage not set" rfl).1
      (by decide),
   (GetUsage_fails_iff_no_colon failingWorld).2.1 "exit status 1" rfl⟩

/-! ## Claims on the fact parser -/

theorem GetSubManFacts_of_stdout (w : World) (out : String) (h : w.run "facts" = .ok out) :
    GetSubManFacts w = ((scanLines out).foldl factsLine [], none) := by
  unfold GetSubManFacts execSubManCommand
  rw [h]

theorem utf8Len_replicate (n : Nat) : utf8Len (List.replicate n 'a') = n := by
  unfold utf8Len
  rw [List.map_replicate, List.sum_replicate]
  have h : Char.utf8Size 'a' = 1 := by decide
  rw [h, smul_eq_mul, mul_one]

theorem scanLines_long_line (n : Nat) (rest : List Char) (h : MaxScanTokenSize ≤ n) :
    scanLines ⟨List.replicate n 'a' ++ '\n' :: 'k' :: rest⟩ = [] := by
  have hnl : '\n' ∉ List.replicate n 'a' := by
    intro hm
    exact absurd (List.eq_of_mem_replicate hm) (by decide)
  have hsplit := splitNewline_append (List.replicate n 'a') ('k' :: rest) hnl
  have hlen : ¬ utf8Len (List.replicate n 'a') < MaxScanTokenSize := by
    rw [utf8Len_replicate]
    exact Nat.not_lt.2 h
  have hp : decide (utf8Len (List.replicate n 'a') < MaxScanTokenSize) = false :=
    decide_eq_false hlen
  unfold scanLines rawLines
  simp only [hsplit]
  split
  · cases splitNewline ('k' :: rest) with
    | nil => simp [List.dropLast]
    | cons y ys => simp [List.dropLast, List.takeWhile, hp]
  · simp [List.takeWhile, hp]

theorem not_validLine_replicate (n : Nat) : ¬ validLine (List.replicate n 'a') := by
  intro h
  exact absurd (List.eq_of_mem_replicate h.2.2.2) (by decide)

theorem long_line_facts (n : Nat) (h : MaxScanTokenSize ≤ n) :
    (lastLineWithKey (splitNewline (List.replicate n 'a' ++ "\nk: v".data)) "k").map lineValue
      = some "v" ∧
    Facts.get (GetSubManFacts (printing ⟨List.replicate n 'a' ++ "\nk: v".data⟩)).1 "k"
      = none := by
  have e : "\nk: v".data = '\n' :: 'k' :: ": v".data := by decide
  have hnl : '\n' ∉ List.replicate n 'a' := by
    intro hm
    exact absurd (List.eq_of_mem_replicate hm) (by decide)
  constructor
  · rw [e, splitNewline_append _ _ hnl]
    have h1 : splitNewline ('k' :: ": v".data) = ["k: v".data] := by decide
    have h2 : decide (validLine (List.replicate n 'a') ∧ lineKey (List.replicate n 'a') = "k")
        = false := by
      apply decide_eq_false
      intro hv
      exact not_validLine_replicate n hv.1
    have h3 : decide (validLine "k: v".data ∧ lineKey "k: v".data = "k") = true := by decide
    have h4 : lineValue "k: v".data = "v" := by decide
    rw [h1]
    unfold lastLineWithKey
    simp only [List.filter, h2, h3, List.getLast?_singleton, Option.map, h4]
  · rw [GetSubManFacts_of_stdout _ _ rfl, e, scanLines_long_line n _ h]
    rfl

/-- Claim C2 as stated fails: in the output made of a line of 65536 letters
`a` followed by the line `k: v`, the last valid line with key `k` has the value
`v`, yet the returned map has no entry for `k`: the scanner stops at the first
line, which does not fit its buffer, and no later line is read. -/
theorem GetSubManFacts_long_line_counterexample :
    (lastLineWithKey (splitNewline (List.replicate 65536 'a' ++ "\nk: v".data)) "k").map
      lineValue = some "v" ∧
    Facts.get (GetSubManFacts (printing ⟨List.replicate 65536 'a' ++ "\nk: v".data⟩)).1 "k"
      = none :=
  long_line_facts 65536 (by decide)

/-- Claim C2, amended: for every output of the `facts` command in which every
line is shorter than 65536 bytes, `GetSubManFacts` returns no error and a map
in which key `k` has value `v` exactly when `v` is the trimmed text after the
first colon of the last line that is not blank, does not start (surrounding
white space apart) with `;` or `#`, holds a colon, and has `k` as the trimmed
text before its first colon. -/
theorem GetSubManFacts_exact_pairs (w : World) (out : String)
    (hrun : w.run "facts" = .ok out)
    (hlen : ∀ l ∈ splitNewline out.data, utf8Len l < MaxScanTokenSize) (k v : String) :
    (GetSubManFacts w).2 = none ∧
    (Facts.get (GetSubManFacts w).1 k = some v ↔
      ∃ l, lastLineWithKey (splitNewline out.data) k = some l ∧ lineValue l = v) := by
  refine ⟨rfl, ?_⟩
  rw [GetSubManFacts_of_stdout w out hrun, scanLines_of_short out hlen]
  simp only
  rw [foldl_factsLine_map, foldl_lineStep_get, lastLineWithKey_rawLines]
  cases lastLineWithKey (splitNewline out.data) k with
  | none => simp [Facts.get]
  | some l => simp

/-- Claim C2, amended, at an output with a comment line and a blank line
between two valid lines: the map holds exactly the two valid pairs. -/
theorem GetSubManFacts_exact_pairs_witness :
    ((GetSubManFacts (printing "a: 1\n# c: d\n\nb: 2\n")).2 = none ∧
      (Facts.get (GetSubManFacts (printing "a: 1\n# c: d\n\nb: 2\n")).1 "b" = some "2" ↔
        ∃ l, lastLineWithKey (splitNewline "a: 1\n# c: d\n\nb: 2\n".data) "b" = some l ∧
          lineValue l = "2")) ∧
    (GetSubManFacts (printing "a: 1\n# c: d\n\nb: 2\n")).1 = [("b", "2"), ("a", "1")] :=
  ⟨GetSubManFacts_exact_pairs (printing "a: 1\n# c: d\n\nb: 2\n") "a: 1\n# c: d\n\nb: 2\n" rfl
    (by decide) "b" "2", by decide⟩

/-! ## Claims on the certificate reader -/

/-- Claim C7: the code does not return a decode error.  Whenever the
certificate file is readable and no PEM block can be decoded from its content,
`LoadCertificate` dereferences the nil block and ends in a run-time panic, and
so do its callers `GetHostId` and `LoadSubManInformation`, which do not
recover from it. -/
theorem LoadCertificate_no_pem_block_crashes (w : World) (c : Config) (hi : HostInfo)
    (certBytes : List UInt8) (hread : w.readFile c.HostCertPath = .ok certBytes)
    (hpem : w.pemDecode certBytes = none) :
    LoadCertificate w c.HostCertPath = .crash ∧ GetHostId w c = .crash ∧
    LoadSubManInformation w c hi = .crash := by
  have h1 : LoadCertificate w c.HostCertPath = .crash := by
    unfold LoadCertificate
    rw [hread]
    simp only [hpem]
  have h2 : GetHostId w c = .crash := by
    unfold GetHostId
    rw [h1]
  refine ⟨h1, h2, ?_⟩
  unfold LoadSubManInformation
  rw [h2]

/-- Claim C7, at a readable file that holds the text `not pem`. -/
theorem LoadCertificate_no_pem_block_crashes_witness :
    LoadCertificate noPemWorld "/etc/pki/consumer/cert.pem" = .crash ∧
    GetHostId noPemWorld ⟨"/etc/pki/consumer/cert.pem"⟩ = .crash ∧
    LoadSubManInformation noPemWorld ⟨"/etc/pki/consumer/cert.pem"⟩ emptyHostInfo = .crash :=
  LoadCertificate_no_pem_block_crashes noPemWorld ⟨"/etc/pki/consumer/cert.pem"⟩ emptyHostInfo
    [110, 111, 116, 32, 112, 101, 109] rfl rfl

/-- The part of claim C7 that holds: `GetHostId` returns a name without an
error only when reading, decoding and parsing all succeed, and the name is
then the subject common name of the parsed certificate. -/
theorem GetHostId_common_name (w : World) (c : Config) (name : String)
    (h : GetHostId w c = .returned (name, none)) :
    ∃ certBytes block cert, w.readFile c.HostCertPath = .ok certBytes ∧
      w.pemDecode certBytes = some block ∧ w.parseCertificate block.Bytes = .ok cert ∧
      name = cert.Subject.CommonName := by
  unfold GetHostId LoadCertificate at h
  cases hr : w.readFile c.HostCertPath with
  | error e => simp [hr] at h
  | ok certBytes =>
    cases hp : w.pemDecode certBytes with
    | none => simp [hr, hp] at h
    | some block =>
      cases hc : w.parseCertificate block.Bytes with
      | error e => simp [hr, hp, hc] at h
      | ok cert =>
        simp only [hr, hp, hc, Outcome.returned.injEq, Prod.mk.injEq, and_true] at h
        exact ⟨certBytes, block, cert, rfl, hp, hc, h.symm⟩

/-! ## Claims on the collection -/

theorem execSubManCommand_withRun (w : World) (c c' : String) (r : Except String String)
    (h : c' ≠ c) : execSubManCommand (withRun w c r) c' = execSubManCommand w c' := by
  unfold execSubManCommand withRun
  simp only [h, if_false]

theorem GetHostId_withRun (w : World) (c : String) (r : Except String String) (cfg : Config) :
    GetHostId (withRun w c r) cfg = GetHostId w cfg := rfl

theorem GetUsage_withRun (w : World) (c : String) (r : Except String String)
    (h : "usage" ≠ c) : GetUsage (withRun w c r) = GetUsage w := by
  unfold GetUsage
  rw [execSubManCommand_withRun w c "usage" r h]

theorem GetServiceLevel_withRun (w : World) (c : String) (r : Except String String)
    (h : "service-level" ≠ c) : GetServiceLevel (withRun w c r) = GetServiceLevel w := by
  unfold GetServiceLevel
  rw [execSubManCommand_withRun w c "service-level" r h]

theorem GetSubManFacts_withRun (w : World) (c : String) (r : Except String String)
    (h : "facts" ≠ c) : GetSubManFacts (withRun w c r) = GetSubManFacts w := by
  unfold GetSubManFacts
  rw [execSubManCommand_withRun w c "facts" r h]

theorem GetSubManFacts_of_failure (w : World) (e : String) (h : w.run "facts" = .error e) :
    GetSubManFacts w = ([], none) := by
  unfold GetSubManFacts execSubManCommand
  rw [h]
  rfl

/-- The record that the three commands leave, field by field. -/
theorem loadCommands_eq (w : World) (hi : HostInfo) :
    loadCommands w hi =
      FactsToHostInfo (GetSubManFacts w).1
        { hi with Usage := fieldAfter hi.Usage (GetUsage w)
                  Support := fieldAfter hi.Support (GetServiceLevel w) } := by
  unfold loadCommands
  rcases hu : GetUsage w with ⟨u, _ | eu⟩ <;> rcases hs : GetServiceLevel w with ⟨v, _ | es⟩ <;>
    simp only [GetSubManFacts, fieldAfter]

theorem loadCommands_fields (w : World) (hi : HostInfo) :
    (loadCommands w hi).HostId = hi.HostId ∧
    (loadCommands w hi).Usage = fieldAfter hi.Usage (GetUsage w) ∧
    (loadCommands w hi).Support = fieldAfter hi.Support (GetServiceLevel w) ∧
    (loadCommands w hi).Product = (FactsToHostInfo (GetSubManFacts w).1 hi).Product ∧
    (loadCommands w hi).SocketCount = (FactsToHostInfo (GetSubManFacts w).1 hi).SocketCount ∧
    (loadCommands w hi).Billing = (FactsToHostInfo (GetSubManFacts w).1 hi).Billing := by
  rw [loadCommands_eq, FactsToHostInfo_eq, FactsToHostInfo_eq]
  exact ⟨rfl, rfl, rfl, rfl, rfl, rfl⟩

theorem LoadSubManInformation_of_returned (w : World) (cfg : Config) (hi : HostInfo)
    (hostId : String × Option String) (h : GetHostId w cfg = .returned hostId) :
    LoadSubManInformation w cfg hi = .returned (loadCommands w (afterHostId hi hostId)) := by
  unfold LoadSubManInformation
  rw [h]
  rcases hostId with ⟨a, _ | e⟩ <;> rfl

theorem afterHostId_fields (hi : HostInfo) (hostId : String × Option String) :
    (afterHostId hi hostId).Usage = hi.Usage ∧ (afterHostId hi hostId).Support = hi.Support ∧
    (afterHostId hi hostId).Product = hi.Product ∧
    (afterHostId hi hostId).SocketCount = hi.SocketCount ∧
    (afterHostId hi hostId).Billing = hi.Billing := by
  rcases hostId with ⟨a, _ | e⟩ <;> exact ⟨rfl, rfl, rfl, rfl, rfl⟩

theorem FactsToHostInfo_nil (hi : HostInfo) :
    (FactsToHostInfo [] hi).Product = hi.Product ∧
    (FactsToHostInfo [] hi).SocketCount = hi.SocketCount ∧
    (FactsToHostInfo [] hi).Billing.Marketplace = hi.Billing.Marketplace ∧
    (FactsToHostInfo [] hi).Billing.MarketplaceAccount = hi.Billing.MarketplaceAccount ∧
    (FactsToHostInfo [] hi).Billing.MarketplaceInstanceId = hi.Billing.MarketplaceInstanceId ∧
    (FactsToHostInfo [] hi).Billing.Model =
      (if hi.Billing.Marketplace ≠ "" then "marketplace" else hi.Billing.Model) := by
  rw [FactsToHostInfo_eq]
  exact ⟨rfl, rfl, rfl, rfl, rfl, rfl⟩

theorem FactsToHostInfo_congr (facts : Facts) (x y : HostInfo) (hp : x.Product = y.Product)
    (hs : x.SocketCount = y.SocketCount) (hb : x.Billing = y.Billing) :
    (FactsToHostInfo facts x).Product = (FactsToHostInfo facts y).Product ∧
    (FactsToHostInfo facts x).SocketCount = (FactsToHostInfo facts y).SocketCount ∧
    (FactsToHostInfo facts x).Billing = (FactsToHostInfo facts y).Billing := by
  rw [FactsToHostInfo_eq, FactsToHostInfo_eq, hp, hs, hb]
  exact ⟨rfl, rfl, rfl⟩

theorem afterHostId_HostId (hi : HostInfo) (hostId : String × Option String) :
    (afterHostId hi hostId).HostId = fieldAfter hi.HostId hostId := by
  rcases hostId with ⟨a, _ | e⟩ <;> rfl

/-- Claim C6 as stated fails in two ways.  When `facts` fails after a good
certificate, `usage` and `service-level`, a field fed by the facts does not
keep its prior value: from a prior record with Marketplace `m0` and an unset
Model the collection ends with Model `marketplace`.  When the certificate
file holds no PEM block, the failure of the certificate loader stops the
collection: no record is returned, although all three commands succeed. -/
theorem LoadSubManInformation_failure_counterexample :
    factsFailingWorld.run "facts" = .error "exit status 70" ∧
    priorHostInfo.Billing.Model = "" ∧
    LoadSubManInformation factsFailingWorld ⟨"/etc/pki/consumer/cert.pem"⟩ priorHostInfo =
      .returned
        { HostId := "host-1", Usage := "Production", Support := "Premium", Product := "p0",
          SocketCount := "1",
          Billing := { Marketplace := "m0", MarketplaceAccount := "a0",
                       MarketplaceInstanceId := "i0", Model := "marketplace" } } ∧
    LoadSubManInformation noPemCommandsWorld ⟨"/etc/pki/consumer/cert.pem"⟩ priorHostInfo =
      .crash :=
  ⟨rfl, rfl, by decide, by decide⟩

/-- Claim C6, amended: when the certificate loader returns (a name or an
error), the collection returns a record `r` in which every field is collected
from its own source, whatever the other results are.  `r.HostId` is the name,
or the prior value after an error.  `r.Usage` is the trimmed text after the
first colon of the output of `usage`, or the prior value when that output has
no colon or the command fails; likewise `r.Support` for `service-level`.
`r.Product`, `r.SocketCount` and `r.Billing` are what `FactsToHostInfo` makes
of the parsed facts and the prior record.  If `usage` (`service-level`) fails,
every field other than `Usage` (`Support`) is the one the collection gives when
the command succeeds with any output.  If `facts` fails, `HostId`, `Usage` and
`Support` are the ones the collection gives when `facts` succeeds with any
output, and the fields fed by the facts keep their prior values, but for
`Billing.Model`, which becomes `marketplace` when the prior Marketplace is not
empty. -/
theorem LoadSubManInformation_best_effort (w : World) (cfg : Config) (hi : HostInfo)
    (hostId : String × Option String) (hcert : GetHostId w cfg = .returned hostId) :
    ∃ r, LoadSubManInformation w cfg hi = .returned r ∧
      r.HostId = fieldAfter hi.HostId hostId ∧
      (∀ out, w.run "usage" = .ok out → ':' ∈ out.data →
        r.Usage = ⟨trimSpaceChars (afterColon out.data)⟩) ∧
      (∀ out, w.run "usage" = .ok out → ':' ∉ out.data → r.Usage = hi.Usage) ∧
      (∀ out, w.run "service-level" = .ok out → ':' ∈ out.data →
        r.Support = ⟨trimSpaceChars (afterColon out.data)⟩) ∧
      (∀ out, w.run "service-level" = .ok out → ':' ∉ out.data → r.Support = hi.Support) ∧
      (r.Product = (FactsToHostInfo (GetSubManFacts w).1 hi).Product ∧
        r.SocketCount = (FactsToHostInfo (GetSubManFacts w).1 hi).SocketCount ∧
        r.Billing = (FactsToHostInfo (GetSubManFacts w).1 hi).Billing) ∧
      (∀ e, w.run "usage" = .error e →
        r.Usage = hi.Usage ∧
        ∀ out, ∃ r', LoadSubManInformation (withRun w "usage" (.ok out)) cfg hi = .returned r' ∧
          r'.HostId = r.HostId ∧ r'.Support = r.Support ∧ r'.Product = r.Product ∧
          r'.SocketCount = r.SocketCount ∧ r'.Billing = r.Billing) ∧
      (∀ e, w.run "service-level" = .error e →
        r.Support = hi.Support ∧
        ∀ out, ∃ r', LoadSubManInformation (withRun w "service-level" (.ok out)) cfg hi
            = .returned r' ∧
          r'.HostId = r.HostId ∧ r'.Usage = r.Usage ∧ r'.Product = r.Product ∧
          r'.SocketCount = r.SocketCount ∧ r'.Billing = r.Billing) ∧
      (∀ e, w.run "facts" = .error e →
        (r.Product = hi.Product ∧ r.SocketCount = hi.SocketCount ∧
          r.Billing.Marketplace = hi.Billing.Marketplace ∧
          r.Billing.MarketplaceAccount = hi.Billing.MarketplaceAccount ∧
          r.Billing.MarketplaceInstanceId = hi.Billing.MarketplaceInstanceId ∧
          r.Billing.Model =
            (if hi.Billing.Marketplace ≠ "" then "marketplace" else hi.Billing.Model)) ∧
        ∀ out, ∃ r', LoadSubManInformation (withRun w "facts" (.ok out)) cfg hi = .returned r' ∧
          r'.HostId = r.HostId ∧ r'.Usage = r.Usage ∧ r'.Support = r.Support) := by
  obtain ⟨a1, a2, a3, a4, a5⟩ := afterHostId_fields hi hostId
  obtain ⟨f1, f2, f3, f4, f5, f6⟩ := loadCommands_fields w (afterHostId hi hostId)
  obtain ⟨c1, c2, c3⟩ :=
    FactsToHostInfo_congr (GetSubManFacts w).1 (afterHostId hi hostId) hi a3 a4 a5
  rw [a1] at f2
  rw [a2] at f3
  rw [c1] at f4
  rw [c2] at f5
  rw [c3] at f6
  refine ⟨loadCommands w (afterHostId hi hostId),
    LoadSubManInformation_of_returned w cfg hi hostId hcert,
    f1.trans (afterHostId_HostId hi hostId), ?_, ?_, ?_, ?_, ⟨f4, f5, f6⟩, ?_, ?_, ?_⟩
  · intro out ho hc
    rw [f2, GetUsage_of_stdout w out ho, if_pos hc]
    rfl
  · intro out ho hc
    rw [f2, GetUsage_of_stdout w out ho, if_neg hc]
    rfl
  · intro out ho hc
    rw [f3, GetServiceLevel_of_stdout w out ho, if_pos hc]
    rfl
  · intro out ho hc
    rw [f3, GetServiceLevel_of_stdout w out ho, if_neg hc]
    rfl
  · intro e he
    constructor
    · rw [f2, GetUsage_of_failure w e he]
      rfl
    · intro out
      refine ⟨loadCommands (withRun w "usage" (.ok out)) (afterHostId hi hostId),
        LoadSubManInformation_of_returned _ cfg hi hostId
          ((GetHostId_withRun w _ _ cfg).trans hcert), ?_⟩
      obtain ⟨g1, _, g3, g4, g5, g6⟩ :=
        loadCommands_fields (withRun w "usage" (.ok out)) (afterHostId hi hostId)
      rw [GetServiceLevel_withRun w _ _ (by decide), a2] at g3
      rw [GetSubManFacts_withRun w _ _ (by decide)] at g4 g5 g6
      rw [c1] at g4
      rw [c2] at g5
      rw [c3] at g6
      exact ⟨g1.trans f1.symm, g3.trans f3.symm, g4.trans f4.symm, g5.trans f5.symm,
        g6.trans f6.symm⟩
  · intro e he
    constructor
    · rw [f3, GetServiceLevel_of_failure w e he]
      rfl
    · intro out
      refine ⟨loadCommands (withRun w "service-level" (.ok out)) (afterHostId hi hostId),
        LoadSubManInformation_of_returned _ cfg hi hostId
          ((GetHostId_withRun w _ _ cfg).trans hcert), ?_⟩
      obtain ⟨g1, g2, _, g4, g5, g6⟩ :=
        loadCommands_fields (withRun w "service-level" (.ok out)) (afterHostId hi hostId)
      rw [GetUsage_withRun w _ _ (by decide), a1] at g2
      rw [GetSubManFacts_withRun w _ _ (by decide)] at g4 g5 g6
      rw [c1] at g4
      rw [c2] at g5
      rw [c3] at g6
      exact ⟨g1.trans f1.symm, g2.trans f2.symm, g4.trans f4.symm, g5.trans f5.symm,
        g6.trans f6.symm⟩
  · intro e he
    constructor
    · rw [GetSubManFacts_of_failure w e he] at f4 f5 f6
      obtain ⟨n1, n2, n3, n4, n5, n6⟩ := FactsToHostInfo_nil hi
      rw [f4, f5, f6]
      exact ⟨n1, n2, n3, n4, n5, n6⟩
    · intro out
      refine ⟨loadCommands (withRun w "facts" (.ok out)) (afterHostId hi hostId),
        LoadSubManInformation_of_returned _ cfg hi hostId
          ((GetHostId_withRun w _ _ cfg).trans hcert), ?_⟩
      obtain ⟨g1, g2, g3, _, _, _⟩ :=
        loadCommands_fields (withRun w "facts" (.ok out)) (afterHostId hi hostId)
      rw [GetUsage_withRun w _ _ (by decide), a1] at g2
      rw [GetServiceLevel_withRun w _ _ (by decide), a2] at g3
      exact ⟨g1.trans f1.symm, g2.trans f2.symm, g3.trans f3.symm⟩

/-- Claim C6, amended, at a world in which the certificate file is missing and
`usage` fails while `service-level` and `facts` succeed: the collection
returns, `HostId` and `Usage` keep their prior values, and `Support`,
`Product` and `SocketCount` are collected all the same. -/
theorem LoadSubManInformation_best_effort_witness :
    GetHostId noCertWorld ⟨"/etc/pki/consumer/cert.pem"⟩ = .returned ("", some "no such file") ∧
    ∃ r, LoadSubManInformation noCertWorld ⟨"/etc/pki/consumer/cert.pem"⟩ priorHostInfo
        = .returned r ∧
      r.HostId = "h0" ∧ r.Usage = "u0" ∧ r.Support = "Premium" ∧ r.Product = "RHEL" ∧
      r.SocketCount = "2" := by
  refine ⟨rfl, ?_⟩
  obtain ⟨r, h, h0, _, _, hs, _, ⟨hp, hk, _⟩, hu, _, _⟩ :=
    LoadSubManInformation_best_effort noCertWorld ⟨"/etc/pki/consumer/cert.pem"⟩
      priorHostInfo ("", some "no such file") rfl
  have e1 : String.mk (trimSpaceChars (afterColon "Service level: Premium\n".data))
      = "Premium" := by decide
  have e2 : (FactsToHostInfo (GetSubManFacts noCertWorld).1 priorHostInfo).Product
      = "RHEL" := by decide
  have e3 : (FactsToHostInfo (GetSubManFacts noCertWorld).1 priorHostInfo).SocketCount
      = "2" := by decide
  exact ⟨r, h, h0, (hu "exit status 70" rfl).1,
    (hs "Service level: Premium\n" rfl (by decide)).trans e1, hp.trans e2, hk.trans e3⟩

end hostinfo
